import Mathlib

/-!
Verification of the shape/type-inference layer of the Relax tensor-manipulation
operator constructors (declared in `src/relax/op/tensor/manipulate.h`).

The repository provides only the declaration header; the inference-rule
implementations (`manipulate.cc`) are not part of the sources.  Every inference
rule below is therefore modelled from the specification's symbolic shape
algebra (spec sections 4.1 and 4.2) and from the doc comments of the header,
and each such definition is marked `Modelled from the spec:`.
-/

namespace TVMRelax

/-- A tensor dimension (spec section 3): either a concrete non-negative
integer, a symbolic handle compared by identity, or the distinguished
"symbolic-unknown" value produced when inference cannot determine a result
dimension. -/
inductive Dim where
  | concrete (n : Nat)
  | sym (id : Nat)
  | unknown
deriving DecidableEq, Repr

/-- Error kinds raised at construction time (spec section 7). -/
inductive Err where
  | argumentKindError
  | axisError
  | shapeError
  | attributeError
  | typeError
deriving DecidableEq, Repr

/-- Embed a list of concrete dimension sizes as a shape. -/
def ofNats (l : List Nat) : List Dim := l.map Dim.concrete

/-- Modelled from the spec: combination of one right-aligned dimension pair
under the broadcast rule of spec section 4.1 (implementation `manipulate.cc`
is absent from the sources).  Two concrete dimensions must be equal or one of
them must be exactly 1, in which case the result is the non-1 side; with a
symbolic side the result is conservatively the non-1 side if determinable,
else symbolic-unknown; two concrete, unequal, non-1 dimensions fail with
`ShapeError`. -/
def broadcastDim : Dim → Dim → Except Err Dim
  | .concrete m, .concrete n =>
      if m = n then .ok (.concrete m)
      else if m = 1 then .ok (.concrete n)
      else if n = 1 then .ok (.concrete m)
      else .error .shapeError
  | .concrete 1, .sym j => .ok (.sym j)
  | .sym i, .concrete 1 => .ok (.sym i)
  | .sym i, .sym j => if i = j then .ok (.sym i) else .ok .unknown
  | .concrete m, .sym _ => .ok (.concrete m)
  | .sym _, .concrete n => .ok (.concrete n)
  | _, _ => .ok .unknown

/-- Pad a shape on the left with concrete size-1 dimensions up to length `n`
(spec section 4.1: the shorter shape is padded with implicit 1s). -/
def padLeftOnes (s : List Dim) (n : Nat) : List Dim :=
  List.replicate (n - s.length) (Dim.concrete 1) ++ s

/-- Combine a list of aligned dimension pairs, propagating the first error. -/
def broadcastAligned : List (Dim × Dim) → Except Err (List Dim)
  | [] => .ok []
  | p :: l =>
      match broadcastDim p.1 p.2 with
      | .error e => .error e
      | .ok d =>
          match broadcastAligned l with
          | .error e => .error e
          | .ok ds => .ok (d :: ds)

/-- Modelled from the spec: `broadcast(shapeA, shapeB)` of spec section 4.1:
right-align the two shapes, pad the shorter with implicit size-1 dimensions on
the left, and combine each aligned pair with `broadcastDim`. -/
def broadcastShapes (a b : List Dim) : Except Err (List Dim) :=
  let n := max a.length b.length
  broadcastAligned (List.zip (padLeftOnes a n) (padLeftOnes b n))

/-- The right-aligned, 1-padded pairs of two concrete shapes. -/
def alignedPairs (a b : List Nat) : List (Nat × Nat) :=
  let n := max a.length b.length
  List.zip (List.replicate (n - a.length) 1 ++ a) (List.replicate (n - b.length) 1 ++ b)

theorem broadcastDim_concrete (m n : Nat) :
    broadcastDim (.concrete m) (.concrete n) =
      if m = n ∨ m = 1 ∨ n = 1 then Except.ok (Dim.concrete (if m = 1 then n else m))
      else Except.error Err.shapeError := by
  unfold broadcastDim
  by_cases h1 : m = n <;> by_cases h2 : m = 1 <;> by_cases h3 : n = 1 <;>
    simp_all

theorem broadcastAligned_concrete (l : List (Nat × Nat)) :
    broadcastAligned (l.map (fun p => (Dim.concrete p.1, Dim.concrete p.2))) =
      if ∀ p ∈ l, p.1 = p.2 ∨ p.1 = 1 ∨ p.2 = 1
      then Except.ok (l.map (fun p => Dim.concrete (if p.1 = 1 then p.2 else p.1)))
      else Except.error Err.shapeError := by
  induction l with
  | nil => simp [broadcastAligned]
  | cons p l ih =>
      simp only [List.map_cons, broadcastAligned, broadcastDim_concrete p.1 p.2, ih]
      by_cases hp : p.1 = p.2 ∨ p.1 = 1 ∨ p.2 = 1
      · rw [if_pos hp]
        by_cases hl : ∀ q ∈ l, q.1 = q.2 ∨ q.1 = 1 ∨ q.2 = 1
        · have hall : ∀ q ∈ p :: l, q.1 = q.2 ∨ q.1 = 1 ∨ q.2 = 1 := by
            intro q hq
            rcases List.mem_cons.mp hq with h | h
            · exact h ▸ hp
            · exact hl q h
          rw [if_pos hl, if_pos hall]
        · have hall : ¬ ∀ q ∈ p :: l, q.1 = q.2 ∨ q.1 = 1 ∨ q.2 = 1 := by
            intro hall
            exact hl (fun q hq => hall q (List.mem_cons_of_mem p hq))
          rw [if_neg hl, if_neg hall]
      · have hall : ¬ ∀ q ∈ p :: l, q.1 = q.2 ∨ q.1 = 1 ∨ q.2 = 1 := by
          intro hall
          exact hp (hall p (List.mem_cons_self p l))
        rw [if_neg hp, if_neg hall]

theorem zip_ofNats (a b : List Nat) :
    List.zip (ofNats a) (ofNats b) =
      (List.zip a b).map (fun p => (Dim.concrete p.1, Dim.concrete p.2)) := by
  induction a generalizing b with
  | nil => simp [ofNats]
  | cons x xs ih =>
      cases b with
      | nil => simp [ofNats]
      | cons y ys => simpa [ofNats] using ih ys

theorem padLeftOnes_ofNats (a : List Nat) (n : Nat) :
    padLeftOnes (ofNats a) n = ofNats (List.replicate (n - a.length) 1 ++ a) := by
  simp [padLeftOnes, ofNats, List.map_append, List.map_replicate]

/-- C1 counterexample: on concrete shapes `[1]` and `[0]` the broadcast
succeeds and yields `[0]` (the non-1 side), while the max of the aligned pair
is `1`, so the derived dimension is not the max of the pair. -/
theorem broadcast_max_counterexample :
    broadcastShapes (ofNats [1]) (ofNats [0]) = Except.ok [Dim.concrete 0] ∧
    ofNats (List.zipWith Nat.max [1] [0]) = [Dim.concrete 1] ∧
    ([Dim.concrete 0] : List Dim) ≠ [Dim.concrete 1] := by
  refine ⟨rfl, rfl, ?_⟩
  intro h
  exact absurd (List.head_eq_of_cons_eq h) (by simp)

/-- C1 (amended): for all concrete shapes `A` and `B`, `broadcast(A, B)`
succeeds if and only if, after right-aligning and padding the shorter shape
with size-1 dimensions on the left, every aligned pair is equal or has at
least one side exactly 1; when it succeeds, each result dimension is the
non-1 side of its aligned pair (which equals the max of the pair whenever
both sides are at least 1); when both aligned dimensions are concrete,
unequal, and neither is 1, it fails with `ShapeError`. -/
theorem broadcast_concrete_characterization (A B : List Nat) :
    broadcastShapes (ofNats A) (ofNats B) =
      if ∀ p ∈ alignedPairs A B, p.1 = p.2 ∨ p.1 = 1 ∨ p.2 = 1
      then Except.ok
        ((alignedPairs A B).map (fun p => Dim.concrete (if p.1 = 1 then p.2 else p.1)))
      else Except.error Err.shapeError := by
  have hA : (ofNats A).length = A.length := by simp [ofNats]
  have hB : (ofNats B).length = B.length := by simp [ofNats]
  simp only [broadcastShapes, alignedPairs, hA, hB, padLeftOnes_ofNats]
  rw [zip_ofNats, broadcastAligned_concrete]

/-- Modelled from the spec: dividing one dimension into `n` equal sections
(spec section 4.2, `split` with a section count; implementation
`manipulate.cc` is absent from the sources).  A concrete dimension must be
evenly divisible by `n`, else the construction fails with `ShapeError`; a
symbolic dimension defers to an unknown section length. -/
def splitDim (d : Dim) (n : Nat) : Except Err Dim :=
  match d with
  | .concrete m => if m % n = 0 then .ok (.concrete (m / n)) else .error .shapeError
  | _ => .ok .unknown

/-- Modelled from the spec: `split(x, n, axis)` with an integer section count
`n` (spec section 4.2).  The axis must be in range; the output is an ordered
sequence of `n` section shapes, each equal to the input shape except at
`axis`, where the dimension is divided by `n`. -/
def splitByCount (shape : List Dim) (n : Nat) (axis : Nat) : Except Err (List (List Dim)) :=
  if n = 0 then .error .shapeError
  else if shape.length ≤ axis then .error .axisError
  else
    match splitDim (shape.getD axis Dim.unknown) n with
    | .error e => .error e
    | .ok d => .ok (List.replicate n (shape.set axis d))

/-- C2: for `split(x, n, axis)` with an integer section count `n > 0`, a
valid axis, and a concrete dimension `m` at that axis, the construction fails
with `ShapeError` exactly when `m` is not evenly divisible by `n`; when it is
divisible, the result is `n` sections, each equal to the input shape with the
dimension at `axis` replaced by `m / n`. -/
theorem split_count_spec (shape : List Dim) (n axis m : Nat) (hn : n ≠ 0)
    (ha : axis < shape.length) (hm : shape.getD axis Dim.unknown = Dim.concrete m) :
    splitByCount shape n axis =
      if m % n = 0
      then Except.ok (List.replicate n (shape.set axis (Dim.concrete (m / n))))
      else Except.error Err.shapeError := by
  simp only [splitByCount, hn, if_neg, Nat.not_le.mpr ha, hm, splitDim]
  by_cases h : m % n = 0
  · simp [h]
  · simp [h]

/-- C2 witness: splitting a concrete axis-0 dimension of 9 into 3 sections
yields three sections of size 3, and a dimension of 10 with 3 sections fails
with `ShapeError`. -/
theorem split_count_spec_witness :
    splitByCount (ofNats [9]) 3 0 =
      Except.ok (List.replicate 3 [Dim.concrete 3]) ∧
    splitByCount (ofNats [10]) 3 0 = Except.error Err.shapeError := by
  have h9 := split_count_spec (ofNats [9]) 3 0 9 (by decide) (by decide) rfl
  have h10 := split_count_spec (ofNats [10]) 3 0 10 (by decide) (by decide) rfl
  exact ⟨by simpa using h9, by simpa using h10⟩

/-- Concrete total element count of a shape: the product of its dimensions
when all are concrete, `none` otherwise. -/
def elemCount : List Dim → Option Nat
  | [] => some 1
  | .concrete n :: rest =>
      match elemCount rest with
      | some m => some (n * m)
      | none => none
  | _ :: _ => none

/-- A target-shape entry for `reshape` is either the placeholder `-1` or a
non-negative dimension. -/
def tEntryValid (d : Int) : Bool := decide (d = -1 ∨ 0 ≤ d)

/-- Number of placeholder (`-1`) entries in a reshape target shape. -/
def inferCount (t : List Int) : Nat := t.countP (fun d => decide (d = -1))

/-- Product of the known (non-placeholder) entries of a reshape target. -/
def knownProd (t : List Int) : Nat :=
  (t.filter (fun d => decide (d ≠ -1))).foldr (fun d acc => d.toNat * acc) 1

/-- The target shape with every placeholder replaced by `v`. -/
def fillInfer (t : List Int) (v : Nat) : List Dim :=
  t.map (fun d => if d = -1 then Dim.concrete v else Dim.concrete d.toNat)

/-- Modelled from the spec: `reshape(x, shape)` shape inference (spec
section 4.2; implementation `manipulate.cc` is absent from the sources).  The
target may contain at most one `-1` placeholder, inferred from the total
element count; with a concrete input count the product of known dimensions
must divide the count (one placeholder) or equal it (no placeholder), else
the construction fails with `ShapeError`; with a symbolic input count the
target is taken as given with no cross-check. -/
def reshape (x : List Dim) (t : List Int) : Except Err (List Dim) :=
  if !(t.all tEntryValid) then .error .shapeError
  else if 1 < inferCount t then .error .shapeError
  else
    match elemCount x with
    | some c =>
        if inferCount t = 1 then
          if c % knownProd t = 0 then .ok (fillInfer t (c / knownProd t))
          else .error .shapeError
        else
          if knownProd t = c then .ok (fillInfer t 0) else .error .shapeError
    | none => .ok (t.map (fun d => if d = -1 then Dim.unknown else Dim.concrete d.toNat))

theorem elemCount_fillInfer (t : List Int) (v : Nat) :
    elemCount (fillInfer t v) =
      some (t.foldr (fun d acc => (if d = -1 then v else d.toNat) * acc) 1) := by
  induction t with
  | nil => rfl
  | cons d rest ih =>
      rw [List.foldr_cons]
      by_cases hd : d = -1
      · simp only [fillInfer, List.map_cons, if_pos hd]
        show elemCount (Dim.concrete v :: fillInfer rest v) = _
        simp only [elemCount, ih]
      · simp only [fillInfer, List.map_cons, if_neg hd]
        show elemCount (Dim.concrete d.toNat :: fillInfer rest v) = _
        simp only [elemCount, ih]

theorem inferCount_cons (d : Int) (rest : List Int) :
    inferCount (d :: rest) =
      inferCount rest + if d = -1 then 1 else 0 := by
  by_cases hd : d = -1 <;> simp [inferCount, List.countP_cons, hd]

theorem knownProd_cons (d : Int) (rest : List Int) :
    knownProd (d :: rest) =
      if d = -1 then knownProd rest else d.toNat * knownProd rest := by
  by_cases hd : d = -1 <;> simp [knownProd, List.filter_cons, hd]

theorem foldr_eq_knownProd (t : List Int) (v : Nat) (h : inferCount t = 0) :
    t.foldr (fun d acc => (if d = -1 then v else d.toNat) * acc) 1 = knownProd t := by
  induction t with
  | nil => rfl
  | cons d rest ih =>
      rw [List.foldr_cons, knownProd_cons]
      rw [inferCount_cons] at h
      by_cases hd : d = -1
      · rw [if_pos hd] at h
        omega
      · have hrest : inferCount rest = 0 := by
          rw [if_neg hd] at h
          omega
        rw [if_neg hd, if_neg hd, ih hrest]

theorem foldr_eq_knownProd_mul (t : List Int) (v : Nat) (h : inferCount t = 1) :
    t.foldr (fun d acc => (if d = -1 then v else d.toNat) * acc) 1 =
      knownProd t * v := by
  induction t with
  | nil => simp [inferCount] at h
  | cons d rest ih =>
      rw [List.foldr_cons, knownProd_cons]
      rw [inferCount_cons] at h
      by_cases hd : d = -1
      · have hrest : inferCount rest = 0 := by
          rw [if_pos hd] at h
          omega
        rw [if_pos hd, if_pos hd, foldr_eq_knownProd rest v hrest]
        exact Nat.mul_comm v (knownProd rest)
      · have hrest : inferCount rest = 1 := by
          rw [if_neg hd] at h
          omega
        rw [if_neg hd, if_neg hd, ih hrest]
        exact (Nat.mul_assoc _ _ _).symm

/-- C3: for `reshape(x, shape)` with a concrete input element count `c` and a
valid target: with exactly one placeholder, the construction succeeds exactly
when the product of the known dimensions divides `c`, the placeholder is
inferred as the quotient, and the result's element count equals `c`; with no
placeholder (a fully concrete target), the construction fails with
`ShapeError` unless the target's element count equals `c`. -/
theorem reshape_spec (x : List Dim) (t : List Int) (c : Nat)
    (hval : t.all tEntryValid = true) (hc : elemCount x = some c) :
    (inferCount t = 1 →
        reshape x t =
          (if c % knownProd t = 0 then Except.ok (fillInfer t (c / knownProd t))
           else Except.error Err.shapeError) ∧
        (c % knownProd t = 0 →
          elemCount (fillInfer t (c / knownProd t)) = some c)) ∧
    (inferCount t = 0 →
        reshape x t =
          (if knownProd t = c then Except.ok (fillInfer t 0)
           else Except.error Err.shapeError)) := by
  constructor
  · intro h1
    constructor
    · simp [reshape, hval, hc, h1]
    · intro hdvd
      rw [elemCount_fillInfer, foldr_eq_knownProd_mul t _ h1]
      rw [Nat.mul_div_cancel' (Nat.dvd_of_mod_eq_zero hdvd)]
  · intro h0
    simp [reshape, hval, hc, h0]

/-- C3 witness: a 24-element input of shape `(2,3,4)` reshaped to `(-1, 4)`
yields `(6, 4)`, and reshaped to the fully concrete target `(5, 4)` fails
with `ShapeError`. -/
theorem reshape_spec_witness :
    reshape (ofNats [2, 3, 4]) [-1, 4] = Except.ok [Dim.concrete 6, Dim.concrete 4] ∧
    reshape (ofNats [2, 3, 4]) [5, 4] = Except.error Err.shapeError := by
  have h1 := (reshape_spec (ofNats [2, 3, 4]) [-1, 4] 24 (by decide) rfl).1 (by decide)
  have h2 := (reshape_spec (ofNats [2, 3, 4]) [5, 4] 24 (by decide) rfl).2 (by decide)
  constructor
  · rw [h1.1]
    rfl
  · rw [h2]
    rfl

/-- Two dimensions provably differ only when both are concrete and unequal
(spec section 4.1: a symbolic dimension is never assumed equal or unequal to
another value, so only concrete mismatches are provable). -/
def dimsProvablyDiffer (a b : Dim) : Bool :=
  match a, b with
  | .concrete m, .concrete n => decide (m ≠ n)
  | _, _ => false

/-- The first `batch` dimensions of `data` and `indices` have no provable
mismatch. -/
def batchDimsOk (data indices : List Dim) (batch : Nat) : Bool :=
  (List.zip (data.take batch) (indices.take batch)).all
    (fun p => !(dimsProvablyDiffer p.1 p.2))

/-- Modelled from the spec: `gather_nd(data, indices, batch_dims)` shape
inference (spec section 4.2; implementation `manipulate.cc` is absent from
the sources).  The last dimension `k` of `indices` must be concrete with
`batch_dims + k ≤ rank(data)`, the first `batch_dims` dimensions of `data`
and `indices` must match, and the result shape is `indices`' shape with its
last dimension removed followed by `data`'s dimensions from offset
`batch_dims + k` onward. -/
def gather_nd (data indices : List Dim) (batch : Nat) : Except Err (List Dim) :=
  match indices.getLast? with
  | some (Dim.concrete k) =>
      if batch + k ≤ data.length then
        if batchDimsOk data indices batch then
          .ok (indices.dropLast ++ data.drop (batch + k))
        else .error .shapeError
      else .error .shapeError
  | _ => .error .shapeError

/-- C4: for `gather_nd(data, indices, batch_dims)` with a concrete last
indices dimension `k` such that `batch_dims + k ≤ rank(data)` and matching
batch dimensions, the construction succeeds and the result shape is
`indices`' shape minus its last dimension concatenated with `data`'s
dimensions from offset `batch_dims + k` onward; its rank is
`rank(indices) - 1 + (rank(data) - batch_dims - k)`. -/
theorem gather_nd_spec (data indices : List Dim) (batch k : Nat)
    (hk : indices.getLast? = some (Dim.concrete k))
    (hle : batch + k ≤ data.length)
    (hb : batchDimsOk data indices batch = true) :
    gather_nd data indices batch =
      Except.ok (indices.dropLast ++ data.drop (batch + k)) ∧
    (indices.dropLast ++ data.drop (batch + k)).length =
      (indices.length - 1) + (data.length - (batch + k)) := by
  constructor
  · simp [gather_nd, hk, hle, hb]
  · simp [List.length_append, List.length_dropLast, List.length_drop]

/-- C4 witness: `data` of shape `(4,5,6)`, `indices` of shape `(2,2)` and
`batch_dims = 0` give result shape `(2,6)`. -/
theorem gather_nd_spec_witness :
    gather_nd (ofNats [4, 5, 6]) (ofNats [2, 2]) 0 =
      Except.ok [Dim.concrete 2, Dim.concrete 6] := by
  have h := (gather_nd_spec (ofNats [4, 5, 6]) (ofNats [2, 2]) 0 2 rfl
    (by decide) rfl).1
  rw [h]
  rfl

/-- Modelled from the spec: the set of reduction modes accepted by the
scatter operators (spec sections 4.2 and 7): `update`, `add`, `mul`, `max`
and `min`; any other string is rejected with `AttributeError` at
construction time. -/
def validReduction (r : String) : Bool :=
  r == "update" || r == "add" || r == "mul" || r == "max" || r == "min"

/-- Modelled from the spec: `scatter_nd(data, indices, updates, reduction)`
shape inference (spec section 4.2; implementation `manipulate.cc` is absent
from the sources).  The reduction mode is validated first; the last dimension
`k` of `indices` must be concrete with `k ≤ rank(data)`; `updates`' shape
must equal `indices`' shape minus its last dimension concatenated with
`data`'s dimensions from offset `k` onward; the result shape is exactly
`data`'s shape. -/
def scatter_nd (data indices updates : List Dim) (reduction : String) :
    Except Err (List Dim) :=
  if !(validReduction reduction) then .error .attributeError
  else
    match indices.getLast? with
    | some (Dim.concrete k) =>
        if k ≤ data.length then
          if updates = indices.dropLast ++ data.drop k then .ok data
          else .error .shapeError
        else .error .shapeError
    | _ => .error .shapeError

/-- Modelled from the spec: `scatter_elements(data, indices, updates, axis,
reduction)` (spec sections 4.2 and 7; implementation `manipulate.cc` is
absent from the sources).  The reduction mode is validated first; the axis is
normalized against `data`'s rank; `data` and `indices` must have equal ranks;
the result shape is `data`'s shape. -/
def scatter_elements (data indices updates : List Dim) (axis : Int)
    (reduction : String) : Except Err (List Dim) :=
  if !(validReduction reduction) then .error .attributeError
  else
    let r := data.length
    let a := if axis < 0 then (r : Int) + axis else axis
    if a < 0 ∨ (r : Int) ≤ a then .error .axisError
    else if data.length ≠ indices.length then .error .shapeError
    else .ok data

/-- C5: every successful `scatter_nd` construction derives exactly `data`'s
shape, whatever the indices and updates shapes are; when the updates-shape
contract is violated (all other requirements holding), the construction fails
with `ShapeError`, producing no result shape at all. -/
theorem scatter_nd_shape (data indices updates : List Dim) (red : String)
    (r : List Dim) :
    (scatter_nd data indices updates red = Except.ok r → r = data) ∧
    (∀ k, validReduction red = true →
        indices.getLast? = some (Dim.concrete k) → k ≤ data.length →
        updates ≠ indices.dropLast ++ data.drop k →
        scatter_nd data indices updates red = Except.error Err.shapeError) := by
  constructor
  · intro h
    unfold scatter_nd at h
    repeat' split at h
    all_goals simp_all
  · intro k hv hk hle hne
    simp [scatter_nd, hv, hk, hle, hne]

/-- C5 witness: with `data` of shape `(4,5,6)` and `indices` of shape
`(2,1)`, an updates shape violating the contract fails with `ShapeError`. -/
theorem scatter_nd_shape_witness :
    scatter_nd (ofNats [4, 5, 6]) (ofNats [2, 1]) (ofNats [3, 5, 6]) "add" =
      Except.error Err.shapeError := by
  exact (scatter_nd_shape (ofNats [4, 5, 6]) (ofNats [2, 1]) (ofNats [3, 5, 6])
    "add" []).2 1 rfl rfl (by decide) (by decide)

/-- C6: both scatter constructors accept the reduction attribute exactly when
it is one of `update`, `add`, `mul`, `max`, `min`; any other string fails
with `AttributeError` at construction time, and a valid reduction never
produces an `AttributeError`. -/
theorem scatter_reduction_spec (data indices updates : List Dim) (axis : Int)
    (red : String) :
    (validReduction red = true ↔
      (red = "update" ∨ red = "add" ∨ red = "mul" ∨ red = "max" ∨ red = "min")) ∧
    (validReduction red = false →
      scatter_elements data indices updates axis red = Except.error Err.attributeError ∧
      scatter_nd data indices updates red = Except.error Err.attributeError) ∧
    (validReduction red = true →
      scatter_elements data indices updates axis red ≠ Except.error Err.attributeError ∧
      scatter_nd data indices updates red ≠ Except.error Err.attributeError) := by
  refine ⟨?_, ?_, ?_⟩
  · simp only [validReduction, Bool.or_eq_true, beq_iff_eq]
    tauto
  · intro hv
    constructor <;> simp [scatter_elements, scatter_nd, hv]
  · intro hv
    constructor
    · unfold scatter_elements
      simp only [hv, Bool.not_true, Bool.false_eq_true, if_neg, not_false_iff]
      repeat' split
      all_goals simp
    · unfold scatter_nd
      simp only [hv, Bool.not_true, Bool.false_eq_true, if_neg, not_false_iff]
      repeat' split
      all_goals simp

/-- C6 witness: the reduction string `mean` (listed in the header doc comment
of scatter_elements but not in the accepted set) fails both scatter
constructors with `AttributeError`. -/
theorem scatter_reduction_spec_witness :
    scatter_elements (ofNats [2]) (ofNats [2]) (ofNats [2]) 0 "mean" =
      Except.error Err.attributeError ∧
    scatter_nd (ofNats [2]) (ofNats [2]) (ofNats [2]) "mean" =
      Except.error Err.attributeError := by
  exact (scatter_reduction_spec (ofNats [2]) (ofNats [2]) (ofNats [2]) 0
    "mean").2.1 rfl

/-- A tensor's shape information: a known rank with its dimension list, or
unknown rank (spec section 3). -/
inductive ShapeInfo where
  | known (dims : List Dim)
  | unknownRank
deriving DecidableEq, Repr

/-- Concrete element count of a shape, when the rank and every dimension are
known and concrete. -/
def shapeCount : ShapeInfo → Option Nat
  | .known dims => elemCount dims
  | .unknownRank => none

/-- Logical flattening of one input to a single dimension (spec section 4.2,
concat without an axis): the concrete element count when determinable, else
symbolic-unknown. -/
def flatDim (s : ShapeInfo) : Dim :=
  match shapeCount s with
  | some c => .concrete c
  | none => .unknown

/-- Dimension addition: concrete when both sides are concrete, else
unknown. -/
def addDim : Dim → Dim → Dim
  | .concrete m, .concrete n => .concrete (m + n)
  | _, _ => .unknown

/-- Sum of a list of dimensions. -/
def sumDims (l : List Dim) : Dim := l.foldr addDim (.concrete 0)

/-- The ranks of the inputs whose rank is known. -/
def knownRanks (tensors : List ShapeInfo) : List Nat :=
  tensors.filterMap
    (fun s => match s with | .known dims => some dims.length | .unknownRank => none)

/-- The dimension lists of the inputs whose rank is known. -/
def knownDimLists (tensors : List ShapeInfo) : List (List Dim) :=
  tensors.filterMap
    (fun s => match s with | .known ds => some ds | .unknownRank => none)

/-- Whether some pair of dimensions in the list provably differs. -/
def anyPairDiffers : List Dim → Bool
  | [] => false
  | d :: rest => rest.any (fun e => dimsProvablyDiffer d e) || anyPairDiffers rest

/-- The common dimension of a list when all entries are structurally equal,
else unknown. -/
def unifyDims : List Dim → Dim
  | [] => .unknown
  | d :: rest => if rest.all (fun e => decide (e = d)) then d else .unknown

/-- Modelled from the spec: `concat(tensors, axis)` with a present axis (spec
section 4.2; implementation `manipulate.cc` is absent from the sources).  All
known input ranks must be equal; the axis is normalized against that rank;
non-concat dimensions must have no provable mismatch; the concat dimension of
the result is the sum of the input concat dimensions when all are concrete,
else unknown. -/
def concatWithAxis (tensors : List ShapeInfo) (ax : Int) : Except Err ShapeInfo :=
  match knownRanks tensors with
  | [] => .ok .unknownRank
  | r :: rs =>
      if rs.any (fun q => decide (q ≠ r)) then .error .shapeError
      else
        let a := if ax < 0 then (r : Int) + ax else ax
        if 0 ≤ a ∧ a < (r : Int) then
          let lists := knownDimLists tensors
          if (List.range r).any (fun j =>
              decide (j ≠ a.toNat) &&
                anyPairDiffers (lists.map (fun ds => ds.getD j Dim.unknown)))
          then .error .shapeError
          else .ok (.known ((List.range r).map (fun j =>
            if j = a.toNat then
              (if lists.length = tensors.length then
                sumDims (lists.map (fun ds => ds.getD j Dim.unknown))
               else Dim.unknown)
            else unifyDims (lists.map (fun ds => ds.getD j Dim.unknown)))))
        else .error .axisError

/-- Modelled from the spec: `concat(tensors, axis)` (spec section 4.2).  When
`axis` is absent every input is logically flattened to rank 1 before
concatenation, so the result is a rank-1 shape whose dimension is the sum of
the flattened input dimensions. -/
def concat (tensors : List ShapeInfo) (axis : Option Int) : Except Err ShapeInfo :=
  match axis with
  | none => .ok (.known [sumDims (tensors.map flatDim)])
  | some ax => concatWithAxis tensors ax

theorem sumDims_flat (tensors : List ShapeInfo) (counts : List Nat)
    (h : tensors.map shapeCount = counts.map some) :
    sumDims (tensors.map flatDim) = Dim.concrete counts.sum := by
  induction tensors generalizing counts with
  | nil =>
      have : counts = [] := by
        cases counts with
        | nil => rfl
        | cons c cs => simp at h
      subst this
      rfl
  | cons t ts ih =>
      cases counts with
      | nil => simp at h
      | cons c cs =>
          simp only [List.map_cons, List.cons.injEq] at h
          have hflat : flatDim t = Dim.concrete c := by
            simp [flatDim, h.1]
          simp only [List.map_cons, sumDims, List.foldr_cons, hflat]
          have := ih cs h.2
          simp only [sumDims] at this
          rw [this]
          simp [addDim, List.sum_cons]

/-- C7: `concat(tensors, axis)` with `axis` absent always succeeds with a
rank-1 result, whatever the input ranks (known, unequal or unknown); and when
every input has a concrete element count, the single result dimension is the
sum of the inputs' element counts. -/
theorem concat_no_axis_spec (tensors : List ShapeInfo) :
    (∃ d, concat tensors none = Except.ok (ShapeInfo.known [d])) ∧
    (∀ counts : List Nat, tensors.map shapeCount = counts.map some →
        concat tensors none = Except.ok (ShapeInfo.known [Dim.concrete counts.sum])) := by
  constructor
  · exact ⟨sumDims (tensors.map flatDim), rfl⟩
  · intro counts h
    simp only [concat, sumDims_flat tensors counts h]

/-- C7 witness: concatenating a rank-2 input of shape `(2,3)`, a rank-1 input
of shape `(4)` and an unknown-rank input with no axis yields rank 1; with
only the two concrete inputs the result dimension is `6 + 4 = 10`. -/
theorem concat_no_axis_spec_witness :
    concat [ShapeInfo.known (ofNats [2, 3]), ShapeInfo.known (ofNats [4])] none =
      Except.ok (ShapeInfo.known [Dim.concrete 10]) ∧
    (∃ d, concat [ShapeInfo.known (ofNats [2, 3]), ShapeInfo.unknownRank] none =
      Except.ok (ShapeInfo.known [d])) := by
  constructor
  · exact (concat_no_axis_spec [ShapeInfo.known (ofNats [2, 3]),
      ShapeInfo.known (ofNats [4])]).2 [6, 4] rfl
  · exact (concat_no_axis_spec [ShapeInfo.known (ofNats [2, 3]),
      ShapeInfo.unknownRank]).1

/-- Insertion of a value into a sorted list of positions. -/
def insertSorted (x : Nat) : List Nat → List Nat
  | [] => [x]
  | y :: ys => if x ≤ y then x :: y :: ys else y :: insertSorted x ys

/-- Insertion sort of a list of positions. -/
def sortNats : List Nat → List Nat
  | [] => []
  | x :: xs => insertSorted x (sortNats xs)

/-- Insert a size-1 dimension at each position, in increasing position
order (positions are positions of the output shape). -/
def insertOnesAt (shape : List Dim) (ps : List Nat) : List Dim :=
  ps.foldl (fun acc p => acc.insertIdx p (Dim.concrete 1)) shape

/-- Modelled from the spec: `expand_dims(x, axis)` (header doc and spec
section 4.1; implementation `manipulate.cc` is absent from the sources).
Each axis is normalized against the output rank `rank(x) + len(axis)`
(insertion-style normalization, spec section 4.1); an out-of-range or
repeated axis fails with `AxisError`; a new size-1 dimension is inserted at
each normalized position of the output. -/
def expand_dims (shape : List Dim) (axes : List Int) : Except Err (List Dim) :=
  let m := shape.length + axes.length
  let norm := axes.map (fun a => if a < 0 then (m : Int) + a else a)
  if ∀ a ∈ norm, 0 ≤ a ∧ a < (m : Int) then
    let ps := norm.map Int.toNat
    if ps.Nodup then .ok (insertOnesAt shape (sortNats ps)) else .error .axisError
  else .error .axisError

/-- Remove the elements whose position (counting from `i`) is listed. -/
def removeIdxsFrom (ps : List Nat) : Nat → List Dim → List Dim
  | _, [] => []
  | i, d :: rest =>
      if i ∈ ps then removeIdxsFrom ps (i + 1) rest
      else d :: removeIdxsFrom ps (i + 1) rest

/-- Remove the elements of a shape at the listed positions. -/
def removeIdxs (shape : List Dim) (ps : List Nat) : List Dim :=
  removeIdxsFrom ps 0 shape

/-- Modelled from the spec: `squeeze(x, axis)` (header doc; implementation
`manipulate.cc` is absent from the sources).  With an explicit axis list,
each axis is normalized against `rank(x)`; an out-of-range or repeated axis
fails with `AxisError`; a listed axis whose dimension is not the concrete
value 1 fails with `ShapeError`; the listed axes are removed.  Without an
axis list, every concrete size-1 dimension is removed. -/
def squeeze (shape : List Dim) (axes : Option (List Int)) : Except Err (List Dim) :=
  match axes with
  | none => .ok (shape.filter (fun d => decide (d ≠ Dim.concrete 1)))
  | some axs =>
      let r := shape.length
      let norm := axs.map (fun a => if a < 0 then (r : Int) + a else a)
      if ∀ a ∈ norm, 0 ≤ a ∧ a < (r : Int) then
        let ps := norm.map Int.toNat
        if ps.Nodup then
          if ∀ p ∈ ps, shape.getD p Dim.unknown = Dim.concrete 1 then
            .ok (removeIdxs shape ps)
          else .error .shapeError
        else .error .axisError
      else .error .axisError

/-- The composite construction `squeeze(expand_dims(x, [1]), [1])`. -/
def expandSqueezeAt1 (shape : List Dim) : Except Err (List Dim) :=
  match expand_dims shape [1] with
  | .error e => .error e
  | .ok e => squeeze e (some [1])

theorem removeIdxsFrom_high (ps : List Nat) (l : List Dim) (i : Nat)
    (h : ∀ p ∈ ps, p < i) : removeIdxsFrom ps i l = l := by
  induction l generalizing i with
  | nil => rfl
  | cons d rest ih =>
      have hc : i ∉ ps := fun hm => absurd (h i hm) (lt_irrefl i)
      simp only [removeIdxsFrom, if_neg hc]
      rw [ih (i + 1) (fun p hp => Nat.lt_succ_of_lt (h p hp))]

/-- C8 counterexample: for the rank-0 tensor (all of whose dimensions are
concrete, vacuously), `expand_dims(x, [1])` fails with `AxisError` because
axis 1 is outside the insertion range of a rank-0 input, so the round trip
does not restore the original shape. -/
theorem expand_squeeze_rank0_counterexample :
    expandSqueezeAt1 (ofNats []) = Except.error Err.axisError ∧
    expandSqueezeAt1 (ofNats []) ≠ Except.ok (ofNats []) := by
  refine ⟨rfl, ?_⟩
  intro h2
  have h3 : Except.error Err.axisError = Except.ok (ofNats ([] : List Nat)) := h2
  exact Except.noConfusion h3

/-- C8 (amended): for every tensor `x` of rank at least 1 whose dimensions
are all concrete, `squeeze(expand_dims(x, [1]), [1])` succeeds and derives
exactly `x`'s original shape. -/
theorem expand_squeeze_roundtrip (s : List Nat) (h : s ≠ []) :
    expandSqueezeAt1 (ofNats s) = Except.ok (ofNats s) := by
  obtain ⟨d, rest, rfl⟩ := List.exists_cons_of_ne_nil h
  have hlen : (ofNats (d :: rest)).length = rest.length + 1 := by simp [ofNats]
  have hex : expand_dims (ofNats (d :: rest)) [1] =
      Except.ok (Dim.concrete d :: Dim.concrete 1 :: ofNats rest) := by
    simp only [expand_dims, hlen, List.length_cons, List.length_nil,
      List.map_cons, List.map_nil]
    rw [if_neg (show ¬ ((1 : Int) < 0) by omega)]
    rw [if_pos ?hrange]
    case hrange =>
      intro a ha
      simp only [List.mem_singleton] at ha
      subst ha
      refine ⟨by omega, ?_⟩
      push_cast
      omega
    rw [if_pos (List.nodup_singleton _)]
    show Except.ok (List.insertIdx 1 (Dim.concrete 1) (Dim.concrete d :: ofNats rest)) = _
    rw [List.insertIdx_succ_cons, List.insertIdx_zero]
  show (match expand_dims (ofNats (d :: rest)) [1] with
    | .error e => Except.error e
    | .ok e => squeeze e (some [1])) = _
  rw [hex]
  show squeeze (Dim.concrete d :: Dim.concrete 1 :: ofNats rest) (some [1]) = _
  simp only [squeeze, List.length_cons, List.map_cons, List.map_nil]
  rw [if_neg (show ¬ ((1 : Int) < 0) by omega)]
  rw [if_pos ?hrange2]
  case hrange2 =>
    intro a ha
    simp only [List.mem_singleton] at ha
    subst ha
    refine ⟨by omega, ?_⟩
    push_cast
    omega
  rw [if_pos (List.nodup_singleton _)]
  rw [if_pos ?hone]
  case hone =>
    intro p hp
    simp only [List.mem_singleton] at hp
    subst hp
    rfl
  show Except.ok
    (removeIdxsFrom [Int.toNat 1] 0 (Dim.concrete d :: Dim.concrete 1 :: ofNats rest)) = _
  rw [removeIdxsFrom, if_neg (by decide)]
  rw [removeIdxsFrom, if_pos (by decide)]
  rw [removeIdxsFrom_high [Int.toNat 1] (ofNats rest) 2 (by decide)]
  rfl

/-- C8 witness: the round trip at the concrete shape `(5, 7)`. -/
theorem expand_squeeze_roundtrip_witness :
    expandSqueezeAt1 (ofNats [5, 7]) = Except.ok (ofNats [5, 7]) :=
  expand_squeeze_roundtrip [5, 7] (by simp)

/-- Modelled from the spec: `one_hot(indices, on_value, off_value, depth,
axis)` (spec section 4.2; implementation `manipulate.cc` is absent from the
sources).  The element types of `on_value` and `off_value` must agree, else
`TypeError`; `depth` must be non-negative; the axis is normalized against the
output rank `rank(indices) + 1`; the result is `indices`' shape with the
depth dimension inserted at the normalized axis, and its dtype is the shared
element type. -/
def one_hot (indices : List Dim) (onType offType : String) (depth : Int)
    (axis : Int) : Except Err (List Dim × String) :=
  if onType ≠ offType then .error .typeError
  else if depth < 0 then .error .attributeError
  else
    let m := indices.length + 1
    let a := if axis < 0 then (m : Int) + axis else axis
    if 0 ≤ a ∧ a < (m : Int) then
      .ok (indices.insertIdx a.toNat (Dim.concrete depth.toNat), onType)
    else .error .axisError

/-- C9: every successful `one_hot` construction has result rank
`rank(indices) + 1` and result dtype the element type shared by `on_value`
and `off_value`, and requires a non-negative depth; when the two element
types do not agree the construction fails with `TypeError`. -/
theorem one_hot_spec (indices : List Dim) (onT offT : String)
    (depth axis : Int) :
    (∀ r, one_hot indices onT offT depth axis = Except.ok r →
        r.1.length = indices.length + 1 ∧ r.2 = onT ∧ onT = offT ∧ 0 ≤ depth) ∧
    (onT ≠ offT →
        one_hot indices onT offT depth axis = Except.error Err.typeError) := by
  constructor
  · intro r hr
    simp only [one_hot] at hr
    by_cases ht : onT ≠ offT
    · rw [if_pos ht] at hr
      exact Except.noConfusion hr
    · rw [if_neg ht] at hr
      by_cases hdep : depth < 0
      · rw [if_pos hdep] at hr
        exact Except.noConfusion hr
      · rw [if_neg hdep] at hr
        by_cases hax : 0 ≤ (if axis < 0 then ((indices.length + 1 : Nat) : Int) + axis else axis) ∧
            (if axis < 0 then ((indices.length + 1 : Nat) : Int) + axis else axis) <
              ((indices.length + 1 : Nat) : Int)
        · rw [if_pos hax] at hr
          have hreq := Except.ok.inj hr
          subst hreq
          refine ⟨?_, rfl, not_ne_iff.mp ht, by omega⟩
          have hle : (if axis < 0 then ((indices.length + 1 : Nat) : Int) + axis
              else axis).toNat ≤ indices.length := by
            rcases hax with ⟨h0, h1⟩
            omega
          exact List.length_insertIdx _ _ hle
        · rw [if_neg hax] at hr
          exact Except.noConfusion hr
  · intro hne
    simp [one_hot, hne]

/-- C9 witness: with `indices` of shape `(2,3)`, shared dtype `float32`,
`depth = 4` and `axis = 0`, the result has rank 3 and dtype `float32`; with
mismatched dtypes the construction fails with `TypeError`. -/
theorem one_hot_spec_witness :
    (([Dim.concrete 4, Dim.concrete 2, Dim.concrete 3] : List Dim).length =
        (ofNats [2, 3]).length + 1 ∧
      "float32" = "float32" ∧ "float32" = "float32" ∧ (0 : Int) ≤ 4) ∧
    one_hot (ofNats [2, 3]) "float32" "int8" 4 0 = Except.error Err.typeError := by
  constructor
  · exact (one_hot_spec (ofNats [2, 3]) "float32" "float32" 4 0).1
      ⟨[Dim.concrete 4, Dim.concrete 2, Dim.concrete 3], "float32"⟩ rfl
  · exact (one_hot_spec (ofNats [2, 3]) "float32" "int8" 4 0).2 (by decide)

/-- Dimension scaling by a repeat count: concrete times concrete is their
product; a repeat of 1 leaves any dimension unchanged; otherwise the result
is unknown. -/
def mulDim : Dim → Dim → Dim
  | .concrete m, .concrete n => .concrete (m * n)
  | d, .concrete 1 => d
  | _, _ => .unknown

/-- Modelled from the spec: `tile(data, repeats)` (header doc of `tile`,
manipulate.h lines 159-174; implementation `manipulate.cc` is absent from
the sources).  With `d = rank(data)` and `l = len(repeats)`: when `d < l`,
data is promoted to rank `l` by prepending size-1 axes; when `d > l`,
repeats is padded to length `d` by prepending 1s; each result dimension is
the promoted data dimension times the padded repeat count. -/
def tile (data : List Dim) (repeats : List Nat) : List Dim :=
  let l := repeats.length
  let d := data.length
  let promoted := List.replicate (l - d) (Dim.concrete 1) ++ data
  let padded := List.replicate (d - l) 1 ++ repeats
  List.zipWith mulDim promoted (padded.map Dim.concrete)

theorem mulDim_concrete (m n : Nat) :
    mulDim (Dim.concrete m) (Dim.concrete n) = Dim.concrete (m * n) := by
  cases n with
  | zero => rfl
  | succ k =>
      cases k with
      | zero => simp [mulDim]
      | succ j => rfl

theorem zipWith_mulDim_concrete (xs ys : List Nat) :
    List.zipWith mulDim (ofNats xs) (ys.map Dim.concrete) =
      ofNats (List.zipWith (fun a b => a * b) xs ys) := by
  induction xs generalizing ys with
  | nil => simp [ofNats]
  | cons x xt ih =>
      cases ys with
      | nil => simp [ofNats]
      | cons y yt =>
          simp only [ofNats, List.map_cons, List.zipWith_cons_cons]
          simp only [ofNats] at ih
          rw [ih yt, mulDim_concrete]

/-- C10: for `tile(data, repeats)` with concrete data of rank `d` and
repeats of length `l`, the result rank is `max(l, d)` and the result equals
the elementwise product of the data promoted to rank `l` by prepending
size-1 axes and the repeats padded to length `d` by prepending 1s. -/
theorem tile_spec (data repeats : List Nat) :
    (tile (ofNats data) repeats).length = max repeats.length data.length ∧
    tile (ofNats data) repeats =
      ofNats (List.zipWith (fun a b => a * b)
        (List.replicate (repeats.length - data.length) 1 ++ data)
        (List.replicate (data.length - repeats.length) 1 ++ repeats)) := by
  have hlen : (ofNats data).length = data.length := by simp [ofNats]
  have heq : tile (ofNats data) repeats =
      ofNats (List.zipWith (fun a b => a * b)
        (List.replicate (repeats.length - data.length) 1 ++ data)
        (List.replicate (data.length - repeats.length) 1 ++ repeats)) := by
    simp only [tile, hlen]
    have hpad : List.replicate (repeats.length - data.length) (Dim.concrete 1) ++
        ofNats data =
        ofNats (List.replicate (repeats.length - data.length) 1 ++ data) := by
      simp [ofNats, List.map_append, List.map_replicate]
    rw [hpad, zipWith_mulDim_concrete]
  refine ⟨?_, heq⟩
  rw [heq]
  simp only [ofNats, List.length_map, List.length_zipWith, List.length_append,
    List.length_replicate]
  omega

end TVMRelax
